import Mathlib

/-!
Verification of the loan-application / audit-log domain logic of the
tredgate-loan application.

The audit-log module is embedded from `src/services/auditLogService.ts`.
JavaScript strings are modelled as `List Char`; `String.prototype.toLowerCase`
as mapping `Char.toLower` (basic-latin lowering), `String.prototype.trim` as
dropping whitespace from both ends, `String.prototype.includes` as a contiguous
sublist test.  JavaScript numbers are modelled as `ℚ`.  The browser's
`localStorage` is modelled as the value stored under the single audit key:
`none` when the key is absent, otherwise the stored string, which is either the
JSON serialization of a list of entries (`jsonOf`, serialization modelled
abstractly as a faithful, injective encoding, as the spec treats the storage
medium abstractly) or a string that fails to parse as one (`corrupt`; this also
covers the empty string, which is falsy in the source's `if (!stored)` check
and in any case fails `JSON.parse`).
-/

/-- Loan status, from `src/types/loan.ts` (string union `pending | approved | rejected`). -/
inductive LoanStatus where
  | pending
  | approved
  | rejected
deriving DecidableEq, Repr

/-- Audit action types, from `src/types/auditLog.ts`. -/
inductive AuditActionType where
  | loanCreated
  | statusChangedManual
  | statusChangedAuto
  | loanDeleted
deriving DecidableEq, Repr

/-- An audit log entry, from `src/types/auditLog.ts`. -/
structure AuditLogEntry where
  id : List Char
  timestamp : List Char
  actionType : AuditActionType
  loanId : List Char
  applicantName : List Char
  amount : ℚ
  previousStatus : Option LoanStatus
  newStatus : Option LoanStatus
  description : List Char
deriving DecidableEq, Repr

/-- A loan application record, fields per the spec's data model and the test
fixtures (`src/types/loan.ts` itself is not under src/). -/
structure LoanApplication where
  id : List Char
  applicantName : List Char
  amount : ℚ
  termMonths : ℕ
  interestRate : ℚ
  status : LoanStatus
  createdAt : List Char
deriving DecidableEq, Repr

/-- The `Pick<LoanApplication, 'id' | 'applicantName' | 'amount'>` snapshot
taken by `createAuditLogEntry`. -/
structure LoanSnapshot where
  id : List Char
  applicantName : List Char
  amount : ℚ
deriving DecidableEq, Repr

/-- The string stored under the audit-log `localStorage` key, with JSON
serialization modelled abstractly: `jsonOf l` is the serialization of `l`,
`corrupt` any string that does not parse as a list of entries. -/
inductive StoredText where
  | jsonOf (logs : List AuditLogEntry)
  | corrupt
deriving DecidableEq, Repr

/-- The `localStorage` state at the audit key: `none` when absent. -/
abbrev Storage := Option StoredText

/-- `getAuditLogs` from `src/services/auditLogService.ts`: absent or
unparsable stored value yields `[]` (the `try`/`catch` swallows the parse
error). -/
def getAuditLogs : Storage → List AuditLogEntry
  | none => []
  | some .corrupt => []
  | some (.jsonOf logs) => logs

/-- `saveAuditLogs` from `src/services/auditLogService.ts`:
`localStorage.setItem(AUDIT_STORAGE_KEY, JSON.stringify(logs))`. -/
def saveAuditLogs (logs : List AuditLogEntry) : Storage :=
  some (.jsonOf logs)

/-- `clearAuditLogs` from `src/services/auditLogService.ts`:
`localStorage.removeItem(AUDIT_STORAGE_KEY)`. -/
def clearAuditLogs : Storage :=
  none

/-- `createAuditLogEntry` from `src/services/auditLogService.ts`.  The id from
`generateId()` (`Date.now`/`Math.random`) and the `new Date().toISOString()`
timestamp are nondeterministic in the source and are passed in explicitly
here. -/
def createAuditLogEntry (newId newTimestamp : List Char)
    (actionType : AuditActionType) (loan : LoanSnapshot)
    (description : List Char)
    (previousStatus newStatus : Option LoanStatus) : AuditLogEntry :=
  { id := newId
    timestamp := newTimestamp
    actionType := actionType
    loanId := loan.id
    applicantName := loan.applicantName
    amount := loan.amount
    previousStatus := previousStatus
    newStatus := newStatus
    description := description }

/-- `logAudit` from `src/services/auditLogService.ts`: load, `push`, save. -/
def logAudit (entry : AuditLogEntry) (st : Storage) : Storage :=
  saveAuditLogs (getAuditLogs st ++ [entry])

/-- Models `Number.prototype.toLocaleString`, used only inside description
strings; exact digit grouping is immaterial to every claim. -/
def localeString (q : ℚ) : List Char :=
  (toString q).data

/-- The string value of a `LoanStatus` as interpolated into descriptions
(the TS union members are these literal strings). -/
def statusText : LoanStatus → List Char
  | .pending => "pending".data
  | .approved => "approved".data
  | .rejected => "rejected".data

/-- `logLoanCreated` from `src/services/auditLogService.ts`. -/
def logLoanCreated (newId newTimestamp : List Char) (loan : LoanApplication)
    (st : Storage) : Storage :=
  logAudit
    (createAuditLogEntry newId newTimestamp .loanCreated
      ⟨loan.id, loan.applicantName, loan.amount⟩
      ("Loan application created for ".data ++ loan.applicantName ++
        " with amount $".data ++ localeString loan.amount)
      none none) st

/-- `logManualStatusChange` from `src/services/auditLogService.ts`. -/
def logManualStatusChange (newId newTimestamp : List Char)
    (loan : LoanSnapshot) (previousStatus newStatus : LoanStatus)
    (st : Storage) : Storage :=
  logAudit
    (createAuditLogEntry newId newTimestamp .statusChangedManual loan
      ("Loan for ".data ++ loan.applicantName ++ " manually changed from ".data ++
        statusText previousStatus ++ " to ".data ++ statusText newStatus)
      (some previousStatus) (some newStatus)) st

/-- `logAutoDecision` from `src/services/auditLogService.ts`. -/
def logAutoDecision (newId newTimestamp : List Char)
    (loan : LoanSnapshot) (previousStatus newStatus : LoanStatus)
    (st : Storage) : Storage :=
  logAudit
    (createAuditLogEntry newId newTimestamp .statusChangedAuto loan
      ("Loan for ".data ++ loan.applicantName ++ " auto-decided from ".data ++
        statusText previousStatus ++ " to ".data ++ statusText newStatus)
      (some previousStatus) (some newStatus)) st

/-- `logLoanDeleted` from `src/services/auditLogService.ts`. -/
def logLoanDeleted (newId newTimestamp : List Char) (loan : LoanApplication)
    (st : Storage) : Storage :=
  logAudit
    (createAuditLogEntry newId newTimestamp .loanDeleted
      ⟨loan.id, loan.applicantName, loan.amount⟩
      ("Loan application for ".data ++ loan.applicantName ++ " deleted (was ".data ++
        statusText loan.status ++ ")".data)
      none none) st

/-- `filterByActionType` from `src/services/auditLogService.ts`. -/
def filterByActionType (logs : List AuditLogEntry)
    (actionType : AuditActionType) : List AuditLogEntry :=
  logs.filter fun log => decide (log.actionType = actionType)

/-- Models `String.prototype.toLowerCase` on a `List Char` string
(basic-latin lowering via `Char.toLower`). -/
def lowerStr (s : List Char) : List Char :=
  s.map Char.toLower

/-- Models `String.prototype.trim`: drop whitespace from both ends. -/
def trimStr (s : List Char) : List Char :=
  (((s.dropWhile Char.isWhitespace).reverse.dropWhile Char.isWhitespace)).reverse

/-- Does `needle` start the string `hay`? (auxiliary for `includes`). -/
def leadsWith : List Char → List Char → Bool
  | [], _ => true
  | _ :: _, [] => false
  | a :: as, b :: bs => a == b && leadsWith as bs

/-- Models `String.prototype.includes`: `needle` occurs contiguously in `hay`. -/
def occursIn (needle : List Char) : List Char → Bool
  | [] => needle.isEmpty
  | b :: bs => leadsWith needle (b :: bs) || occursIn needle bs

/-- The per-entry predicate inside `searchAuditLogs`'s `filter` (with the
already-normalized search string `ns`). -/
def entryMatch (ns : List Char) (log : AuditLogEntry) : Bool :=
  occursIn ns (lowerStr log.description) ||
  occursIn ns (lowerStr log.applicantName) ||
  occursIn ns (lowerStr log.loanId)

/-- `searchAuditLogs` from `src/services/auditLogService.ts`:
`searchText.toLowerCase().trim()`, empty normalized text means no filter. -/
def searchAuditLogs (logs : List AuditLogEntry) (searchText : List Char) :
    List AuditLogEntry :=
  let normalizedSearch := trimStr (lowerStr searchText)
  if normalizedSearch.isEmpty then logs
  else logs.filter (entryMatch normalizedSearch)

/-- `filterAndSearchAuditLogs` from `src/services/auditLogService.ts`.  The
optional TS parameters are `Option`s; the source's truthiness tests
`if (actionType)` / `if (searchText)` make an empty search string skip the
search step (every `AuditActionType` string is non-empty, hence truthy). -/
def filterAndSearchAuditLogs (logs : List AuditLogEntry)
    (actionType : Option AuditActionType) (searchText : Option (List Char)) :
    List AuditLogEntry :=
  let filtered := match actionType with
    | some a => filterByActionType logs a
    | none => logs
  match searchText with
  | some s => if s.isEmpty then filtered else searchAuditLogs filtered s
  | none => filtered

/-- Modelled from the spec: `autoDecideLoan`'s decision rule lives in
`src/services/loanService.ts`, which is not under src/ (only its tests and
callers are).  Spec §4.1: approve if `amount ≤ 100000` and `termMonths ≤ 60`;
reject otherwise; thresholds are fixed business constants. -/
def autoDecide (loan : LoanApplication) : LoanStatus :=
  if loan.amount ≤ 100000 ∧ loan.termMonths ≤ 60 then .approved else .rejected

/-- Modelled from the spec: `calculateMonthlyPayment` lives in
`src/services/loanService.ts`, which is not under src/.  Spec §4.1 gives
`(amount × (1 + interestRate)) / termMonths`; the mock in
`tests/App.test.ts` computes the identical expression. -/
def calculateMonthlyPayment (loan : LoanApplication) : ℚ :=
  (loan.amount * (1 + loan.interestRate)) / loan.termMonths

/-- The four validation failures of `create`, spec §4.1 / §7 (messages are the
`ERROR_*` constants of the e2e text library). -/
inductive ValidationError where
  | nameRequired
  | amountRequired
  | termRequired
  | interestRequired
deriving DecidableEq, Repr

/-- The user-entered create input: the numeric form fields may be empty
(`none`), as in the form component's initial state. -/
structure CreateInput where
  applicantName : List Char
  amount : Option ℚ
  termMonths : Option ℤ
  interestRate : Option ℚ
deriving DecidableEq, Repr

/-- `amount > 0` holds (an absent amount fails the check). -/
def amountOk : Option ℚ → Bool
  | none => false
  | some a => decide (0 < a)

/-- `termMonths > 0` holds (an absent term fails the check). -/
def termOk : Option ℤ → Bool
  | none => false
  | some t => decide (0 < t)

/-- `interestRate` present and `≥ 0`. -/
def rateOk : Option ℚ → Bool
  | none => false
  | some r => decide (0 ≤ r)

/-- Modelled from the spec: the `create` validation lives in
`LoanForm.vue` / `loanService.ts`, neither under src/.  Spec §4.1: checks run
in the order name → amount → term → interest rate, the first failing check
wins, and only one error surfaces per call; the name check trims first. -/
def validateCreateInput (input : CreateInput) : Option ValidationError :=
  if (trimStr input.applicantName).isEmpty then some .nameRequired
  else if !amountOk input.amount then some .amountRequired
  else if !termOk input.termMonths then some .termRequired
  else if !rateOk input.interestRate then some .interestRequired
  else none

/-! ### String helper lemmas -/

theorem toNat_ofNat_valid (n : Nat) (h : n.isValidChar) :
    (Char.ofNat n).toNat = n := by
  rw [Char.ofNat, dif_pos h]
  rfl

theorem isWhitespace_toLower (c : Char) :
    (Char.toLower c).isWhitespace = c.isWhitespace := by
  have hws : ∀ d : Char, 64 < d.toNat → d.isWhitespace = false := by
    intro d hd
    have h32 : d ≠ ' ' := fun h => absurd hd (by subst h; decide)
    have h9 : d ≠ '\t' := fun h => absurd hd (by subst h; decide)
    have h13 : d ≠ '\r' := fun h => absurd hd (by subst h; decide)
    have h10 : d ≠ '\n' := fun h => absurd hd (by subst h; decide)
    simp [Char.isWhitespace, h32, h9, h13, h10]
  by_cases h : 65 ≤ c.toNat ∧ c.toNat ≤ 90
  · have hv : (c.toNat + 32).isValidChar := Or.inl (by omega)
    have h1 : Char.toLower c = Char.ofNat (c.toNat + 32) := by
      simp only [Char.toLower]
      rw [if_pos ⟨h.1, h.2⟩]
    have h2 : (Char.toLower c).toNat = c.toNat + 32 := by
      rw [h1]; exact toNat_ofNat_valid _ hv
    rw [hws _ (by omega), hws c (by omega)]
  · have h1 : Char.toLower c = c := by
      simp only [Char.toLower]
      rw [if_neg fun hc => h ⟨hc.1, hc.2⟩]
    rw [h1]

theorem isWhitespace_comp_toLower :
    Char.isWhitespace ∘ Char.toLower = Char.isWhitespace := by
  funext c
  exact isWhitespace_toLower c

theorem dropWhile_lowerStr (s : List Char) :
    (lowerStr s).dropWhile Char.isWhitespace =
      lowerStr (s.dropWhile Char.isWhitespace) := by
  simp only [lowerStr, List.dropWhile_map, isWhitespace_comp_toLower]

theorem lowerStr_reverse (s : List Char) :
    lowerStr s.reverse = (lowerStr s).reverse := by
  simp [lowerStr]

theorem trimStr_lowerStr (s : List Char) :
    trimStr (lowerStr s) = lowerStr (trimStr s) := by
  simp only [trimStr]
  rw [dropWhile_lowerStr, ← lowerStr_reverse, dropWhile_lowerStr, lowerStr_reverse]

theorem dropWhile_head_false {α : Type} {p : α → Bool} {l : List α} {c : α}
    {t : List α} (h : l.dropWhile p = c :: t) : p c = false := by
  have h2 := List.head?_dropWhile_not p l
  rw [h] at h2
  exact h2

theorem dropWhile_of_pref {α : Type} {p : α → Bool} {l z : List α}
    (h : z <+: l.dropWhile p) : z.dropWhile p = z := by
  cases z with
  | nil => rfl
  | cons c t =>
    obtain ⟨r, hr⟩ := h
    have hc : p c = false := dropWhile_head_false (t := t ++ r) (by
      rw [← hr]; rfl)
    simp [List.dropWhile_cons, hc]

theorem trimStr_pref (s : List Char) :
    trimStr s <+: s.dropWhile Char.isWhitespace := by
  have h1 : ((s.dropWhile Char.isWhitespace).reverse.dropWhile Char.isWhitespace)
      <:+ (s.dropWhile Char.isWhitespace).reverse :=
    List.dropWhile_suffix Char.isWhitespace
  have h2 := List.reverse_prefix.mpr h1
  simpa [trimStr] using h2

theorem trimStr_idem (s : List Char) : trimStr (trimStr s) = trimStr s := by
  have h3 : (trimStr s).dropWhile Char.isWhitespace = trimStr s :=
    dropWhile_of_pref (trimStr_pref s)
  show (((trimStr s).dropWhile Char.isWhitespace).reverse.dropWhile
      Char.isWhitespace).reverse = trimStr s
  rw [h3]
  show ((((s.dropWhile Char.isWhitespace).reverse.dropWhile
      Char.isWhitespace).reverse).reverse.dropWhile Char.isWhitespace).reverse = _
  rw [List.reverse_reverse, List.dropWhile_idempotent]
  rfl

theorem trimStr_eq_nil_iff (s : List Char) :
    trimStr s = [] ↔ s.all Char.isWhitespace := by
  constructor
  · intro h
    simp only [trimStr, List.reverse_eq_nil_iff, List.dropWhile_eq_nil_iff,
      List.mem_reverse] at h
    rw [List.all_eq_true]
    intro x hx
    have hsplit : s = s.takeWhile Char.isWhitespace ++
        s.dropWhile Char.isWhitespace :=
      (List.takeWhile_append_dropWhile Char.isWhitespace s).symm
    rcases List.mem_append.mp (hsplit ▸ hx) with h1 | h2
    · exact List.mem_takeWhile_imp h1
    · exact h x h2
  · intro h
    have hA : s.dropWhile Char.isWhitespace = [] :=
      List.dropWhile_eq_nil_iff.mpr fun x hx => List.all_eq_true.mp h x hx
    simp [trimStr, hA]

theorem all_isWhitespace_lowerStr (s : List Char) :
    (lowerStr s).all Char.isWhitespace = s.all Char.isWhitespace := by
  simp only [lowerStr, List.all_map, isWhitespace_comp_toLower]

theorem searchAuditLogs_sublist (logs : List AuditLogEntry) (s : List Char) :
    (searchAuditLogs logs s).Sublist logs := by
  simp only [searchAuditLogs]
  split
  · exact List.Sublist.refl _
  · exact List.filter_sublist _

/-- Case-insensitive occurrence of `needle` inside `hay`, the spec's notion
of a match against a single field. -/
def occursCI (needle hay : List Char) : Bool :=
  occursIn (lowerStr needle) (lowerStr hay)

/-- The spec's per-entry search predicate: the text occurs case-insensitively
in the description, the applicant name, or the loan id. -/
def matchesSpec (text : List Char) (e : AuditLogEntry) : Bool :=
  occursCI text e.description || occursCI text e.applicantName ||
    occursCI text e.loanId

/-! ### Claim theorems -/

/-- C1: `autoDecide` returns `approved` iff `amount ≤ 100000` and
`termMonths ≤ 60`, and `rejected` otherwise; boundary instances
amount=100000/term=60 → approved, amount=100001/term=60 → rejected,
amount=100000/term=61 → rejected. -/
theorem autoDecide_rule (loan : LoanApplication) :
    (autoDecide loan = .approved ↔
      (loan.amount ≤ 100000 ∧ loan.termMonths ≤ 60))
    ∧ (autoDecide loan = .rejected ↔
      ¬(loan.amount ≤ 100000 ∧ loan.termMonths ≤ 60))
    ∧ autoDecide ⟨"a".data, "n".data, 100000, 60, 2/25, .pending, "t".data⟩
      = .approved
    ∧ autoDecide ⟨"a".data, "n".data, 100001, 60, 2/25, .pending, "t".data⟩
      = .rejected
    ∧ autoDecide ⟨"a".data, "n".data, 100000, 61, 2/25, .pending, "t".data⟩
      = .rejected := by
  refine ⟨?_, ?_, ?_, ?_, ?_⟩
  · unfold autoDecide; split <;> simp_all
  · unfold autoDecide; split <;> simp_all
  · norm_num [autoDecide]
  · norm_num [autoDecide]
  · norm_num [autoDecide]

/-- C2: `calculateMonthlyPayment` is the flat-interest formula
`(amount × (1 + interestRate)) / termMonths`; for amount=50000, rate=0.08,
term=24 it yields 2250. -/
theorem calculateMonthlyPayment_formula (loan : LoanApplication) :
    calculateMonthlyPayment loan =
      loan.amount * (1 + loan.interestRate) / (loan.termMonths : ℚ)
    ∧ calculateMonthlyPayment
        ⟨"a".data, "n".data, 50000, 24, 2/25, .pending, "t".data⟩ = 2250 := by
  refine ⟨rfl, ?_⟩
  norm_num [calculateMonthlyPayment]

/-- C3: `logAudit` appends the entry at the end of the persisted log, leaving
every existing entry in place; `N` sequential appends add exactly the `N`
entries in call order. -/
theorem logAudit_appends (st : Storage) (e : AuditLogEntry)
    (es : List AuditLogEntry) :
    getAuditLogs (logAudit e st) = getAuditLogs st ++ [e]
    ∧ getAuditLogs (es.foldl (fun acc x => logAudit x acc) st) =
      getAuditLogs st ++ es := by
  constructor
  · rfl
  · induction es generalizing st with
    | nil => simp
    | cons a t ih =>
      rw [List.foldl_cons, ih]
      show getAuditLogs st ++ [a] ++ t = getAuditLogs st ++ a :: t
      simp

/-- C6: the create validation checks run name → amount → term → interest rate
and the first failing check determines the single surfaced error; with every
field empty the name error surfaces. -/
theorem validateCreateInput_order (input : CreateInput) :
    ((trimStr input.applicantName).isEmpty = true →
      validateCreateInput input = some .nameRequired)
    ∧ ((trimStr input.applicantName).isEmpty = false →
      amountOk input.amount = false →
      validateCreateInput input = some .amountRequired)
    ∧ ((trimStr input.applicantName).isEmpty = false →
      amountOk input.amount = true → termOk input.termMonths = false →
      validateCreateInput input = some .termRequired)
    ∧ ((trimStr input.applicantName).isEmpty = false →
      amountOk input.amount = true → termOk input.termMonths = true →
      rateOk input.interestRate = false →
      validateCreateInput input = some .interestRequired)
    ∧ ((trimStr input.applicantName).isEmpty = false →
      amountOk input.amount = true → termOk input.termMonths = true →
      rateOk input.interestRate = true → validateCreateInput input = none)
    ∧ validateCreateInput ⟨[], none, none, none⟩ = some .nameRequired := by
  unfold validateCreateInput
  refine ⟨?_, ?_, ?_, ?_, ?_, by decide⟩ <;> intros <;> simp_all

/-- C6 witness: the all-empty input yields the name error. -/
theorem validateCreateInput_order_witness :
    validateCreateInput ⟨[], none, none, none⟩ = some .nameRequired :=
  (validateCreateInput_order ⟨[], none, none, none⟩).1 (by decide)

/-- C7: loading fails soft — an absent or unparsable stored value makes
`getAuditLogs` return the empty list instead of raising. -/
theorem getAuditLogs_fails_soft :
    getAuditLogs none = [] ∧ getAuditLogs (some .corrupt) = [] :=
  ⟨rfl, rfl⟩

/-- C8: entries from `logManualStatusChange` and `logAutoDecision` carry both
`previousStatus` and `newStatus` as passed; entries from `logLoanCreated` and
`logLoanDeleted` carry neither. -/
theorem statusFields_presence (nid nts : List Char) (snap : LoanSnapshot)
    (loan : LoanApplication) (prevS newS : LoanStatus) (st : Storage) :
    (∃ e, getAuditLogs (logManualStatusChange nid nts snap prevS newS st) =
      getAuditLogs st ++ [e] ∧ e.previousStatus = some prevS ∧
      e.newStatus = some newS ∧ e.actionType = .statusChangedManual)
    ∧ (∃ e, getAuditLogs (logAutoDecision nid nts snap prevS newS st) =
      getAuditLogs st ++ [e] ∧ e.previousStatus = some prevS ∧
      e.newStatus = some newS ∧ e.actionType = .statusChangedAuto)
    ∧ (∃ e, getAuditLogs (logLoanCreated nid nts loan st) =
      getAuditLogs st ++ [e] ∧ e.previousStatus = none ∧
      e.newStatus = none ∧ e.actionType = .loanCreated)
    ∧ (∃ e, getAuditLogs (logLoanDeleted nid nts loan st) =
      getAuditLogs st ++ [e] ∧ e.previousStatus = none ∧
      e.newStatus = none ∧ e.actionType = .loanDeleted) :=
  ⟨⟨_, rfl, rfl, rfl, rfl⟩, ⟨_, rfl, rfl, rfl, rfl⟩,
    ⟨_, rfl, rfl, rfl, rfl⟩, ⟨_, rfl, rfl, rfl, rfl⟩⟩

/-- C9: a load immediately after a save returns the saved list, and saving a
freshly loaded list changes nothing observable on a subsequent load. -/
theorem saveLoad_round_trip (l : List AuditLogEntry) (st : Storage) :
    getAuditLogs (saveAuditLogs l) = l
    ∧ getAuditLogs (saveAuditLogs (getAuditLogs st)) = getAuditLogs st :=
  ⟨rfl, rfl⟩

/-- C10: `searchAuditLogs` ignores leading and trailing whitespace of the
query — searching with `s` equals searching with `trim(s)`. -/
theorem searchAuditLogs_trim_invariant (logs : List AuditLogEntry)
    (s : List Char) :
    searchAuditLogs logs s = searchAuditLogs logs (trimStr s) := by
  have key : trimStr (lowerStr (trimStr s)) = trimStr (lowerStr s) := by
    rw [trimStr_lowerStr, trimStr_idem, ← trimStr_lowerStr]
  simp only [searchAuditLogs, key]

/-- C4 counterexample: with the padded query `" JOHN "`, `searchAuditLogs`
keeps an entry although the raw query text occurs case-insensitively in none
of the three searched fields, and the query is not whitespace-only — so the
claim's characterization by occurrence of the (untrimmed) text is false. -/
theorem searchAuditLogs_raw_text_counterexample :
    searchAuditLogs
      [⟨"i1".data, "t1".data, .loanCreated, "L1".data, "John Smith".data, 1,
        none, none, "created".data⟩] " JOHN ".data =
      [⟨"i1".data, "t1".data, .loanCreated, "L1".data, "John Smith".data, 1,
        none, none, "created".data⟩]
    ∧ matchesSpec " JOHN ".data
      ⟨"i1".data, "t1".data, .loanCreated, "L1".data, "John Smith".data, 1,
        none, none, "created".data⟩ = false
    ∧ (" JOHN ".data).all Char.isWhitespace = false := by
  refine ⟨?_, by decide, by decide⟩
  decide

/-- C4 (amended): a whitespace-only (or empty) query returns the input list
unchanged, and otherwise `searchAuditLogs` keeps exactly the entries where the
trimmed query occurs case-insensitively in the description, the applicant
name, or the loan id. -/
theorem searchAuditLogs_characterization (logs : List AuditLogEntry)
    (s : List Char) :
    (s.all Char.isWhitespace = true → searchAuditLogs logs s = logs)
    ∧ (s.all Char.isWhitespace = false →
      searchAuditLogs logs s = logs.filter (matchesSpec (trimStr s))) := by
  constructor
  · intro h
    have hnil : trimStr (lowerStr s) = [] :=
      (trimStr_eq_nil_iff _).mpr (by rw [all_isWhitespace_lowerStr]; exact h)
    simp [searchAuditLogs, hnil]
  · intro h
    have hne : trimStr (lowerStr s) ≠ [] := by
      intro hz
      have hall := (trimStr_eq_nil_iff _).mp hz
      rw [all_isWhitespace_lowerStr, h] at hall
      exact Bool.false_ne_true hall
    have hEmp : (trimStr (lowerStr s)).isEmpty = false := by
      cases hq : trimStr (lowerStr s) with
      | nil => exact absurd hq hne
      | cons c t => rfl
    simp only [searchAuditLogs, hEmp, Bool.false_eq_true, if_false]
    congr 1
    funext e
    simp [entryMatch, matchesSpec, occursCI, trimStr_lowerStr]

/-- C4 witness: the amended characterization applied at concrete inputs. -/
theorem searchAuditLogs_characterization_witness :
    searchAuditLogs ([] : List AuditLogEntry) " ".data = []
    ∧ searchAuditLogs ([] : List AuditLogEntry) "a".data =
      List.filter (matchesSpec (trimStr "a".data)) [] :=
  ⟨(searchAuditLogs_characterization [] " ".data).1 (by decide),
    (searchAuditLogs_characterization [] "a".data).2 (by decide)⟩

/-- C5: combined filter-and-search equals `searchAuditLogs` after
`filterByActionType` (each step skipped when its argument is absent), the
result is an order-preserving subsequence of the input, and an entry survives
exactly when its action type equals the given one and it matches the search
text (an empty normalized text matching everything). -/
theorem filterAndSearch_composition (logs : List AuditLogEntry)
    (a : AuditActionType) (s : List Char) :
    filterAndSearchAuditLogs logs (some a) (some s) =
      searchAuditLogs (filterByActionType logs a) s
    ∧ filterAndSearchAuditLogs logs (some a) none = filterByActionType logs a
    ∧ filterAndSearchAuditLogs logs none (some s) = searchAuditLogs logs s
    ∧ filterAndSearchAuditLogs logs none none = logs
    ∧ (filterAndSearchAuditLogs logs (some a) (some s)).Sublist logs
    ∧ ∀ e, e ∈ filterAndSearchAuditLogs logs (some a) (some s) ↔
        e ∈ logs ∧ e.actionType = a ∧
          ((trimStr (lowerStr s)).isEmpty = true ∨
            entryMatch (trimStr (lowerStr s)) e = true) := by
  have h1 : filterAndSearchAuditLogs logs (some a) (some s) =
      searchAuditLogs (filterByActionType logs a) s := by
    cases s with
    | nil => simp [filterAndSearchAuditLogs, searchAuditLogs, trimStr, lowerStr]
    | cons c t => simp [filterAndSearchAuditLogs]
  have h3 : filterAndSearchAuditLogs logs none (some s) =
      searchAuditLogs logs s := by
    cases s with
    | nil => simp [filterAndSearchAuditLogs, searchAuditLogs, trimStr, lowerStr]
    | cons c t => simp [filterAndSearchAuditLogs]
  refine ⟨h1, rfl, h3, rfl, ?_, ?_⟩
  · rw [h1]
    exact (searchAuditLogs_sublist _ _).trans (List.filter_sublist _)
  · intro e
    rw [h1]
    simp only [searchAuditLogs]
    by_cases hq : (trimStr (lowerStr s)).isEmpty = true
    · simp [hq, filterByActionType, List.mem_filter]
    · simp only [hq, if_false, List.mem_filter, filterByActionType,
        decide_eq_true_eq, Bool.false_eq_true, false_or]
      tauto
